import Mathlib

/-!
Verification of the Remote-Jobs-Aggregator ingestion pipeline.

This file shallowly embeds the repository's Python code (deduplicator,
domain classifiers, remote detector, fetch client, source adapters and
recency filter) as executable Lean definitions and proves or refutes the
frozen specification claims about them.

Python strings are modelled as Lean `String` (a list of characters, i.e.
a sequence of code points, matching Python's string model).  `str.lower`
is modelled with `Char.toLower` (ASCII case folding; all catalogue
keywords and test inputs are ASCII).  Python `None`-valued optional text
fields are modelled as the empty string unless noted otherwise.
-/

namespace RJA

/-- Python's `str.isspace` character class `' \t\n\r\x0b\x0c'`, used by
`str.strip()` and no-argument `str.split()`. -/
def pyIsSpace (c : Char) : Bool :=
  c = ' ' || c = '\t' || c = '\n' || c = '\r' || c = '\x0b' || c = '\x0c'

/-- `str.strip()` on a list of characters: drop whitespace from both ends. -/
def stripL (l : List Char) : List Char :=
  ((l.dropWhile pyIsSpace).reverse.dropWhile pyIsSpace).reverse

/-- Python `s.strip()`. -/
def pyStrip (s : String) : String := ⟨stripL s.data⟩

/-- Python `s.lower()` (ASCII case folding). -/
def pyLower (s : String) : String := ⟨s.data.map Char.toLower⟩

/-- Substring test on character lists: Python's `needle in hay`. -/
def containsL : List Char → List Char → Bool
  | hay, needle =>
    if needle.isPrefixOf hay then true
    else
      match hay with
      | [] => false
      | _ :: t => containsL t needle

/-- Python `sub in s`. -/
def containsSub (s sub : String) : Bool := containsL s.data sub.data

/-- Tokenizer behind no-argument `str.split()`: `acc` holds the characters
of the current (reversed) token. -/
def wordsAux (acc : List Char) : List Char → List (List Char)
  | [] => if acc = [] then [] else [acc.reverse]
  | c :: t =>
    if pyIsSpace c then
      if acc = [] then wordsAux [] t else acc.reverse :: wordsAux [] t
    else wordsAux (c :: acc) t

/-- No-argument `str.split()`: maximal runs of non-whitespace characters. -/
def wordsL (l : List Char) : List (List Char) := wordsAux [] l

/-- Python `s.split()` (whitespace split, empty tokens discarded). -/
def pyWords (s : String) : List String := (wordsL s.data).map (fun w => ⟨w⟩)

/-- The canonical job record moving through the pipeline
(`models.py` `JobBase` / the scrapers' job dicts).  Only the textual
fields consulted by the claims are carried; an absent/`None` field is the
empty string. -/
structure Job where
  title : String := ""
  company : String := ""
  description : String := ""
  location : String := ""
  apply_url : String := ""
deriving DecidableEq, Repr

/-! ## Deduplicator (`src/backend/services/deduplicator.py`) -/

/-- `JobDeduplicator._similarity_score`: token-set Jaccard similarity of the
two strings' whitespace-separated word sets (`words1`/`words2` below appear
inlined).  The Python float division `len(intersection) / len(union)` is
modelled exactly as a rational; for the only comparison performed on it
(`> 0.8` with both counts small) the float and rational comparisons agree. -/
def similarity_score (str1 str2 : String) : ℚ :=
  if str1 = "" ∨ str2 = "" then 0
  else if (pyWords str1).toFinset = (∅ : Finset String) ∨
      (pyWords str2).toFinset = (∅ : Finset String) then 0
  else (((pyWords str1).toFinset ∩ (pyWords str2).toFinset).card : ℚ) /
    (((pyWords str1).toFinset ∪ (pyWords str2).toFinset).card : ℚ)

/-- The comparison `self._similarity_score(str1, str2) > 0.8` performed by
`_is_similar_job`, written with exact integer cross-multiplication
(`card∩ / card∪ > 4/5 ↔ 5·card∩ > 4·card∪`) so that it evaluates inside the
kernel; `similarity_gt_iff` proves it equivalent to the rational-valued
`similarity_score` comparison. -/
def similarity_gt (str1 str2 : String) : Bool :=
  if str1 = "" ∨ str2 = "" then false
  else if (pyWords str1).toFinset = (∅ : Finset String) ∨
      (pyWords str2).toFinset = (∅ : Finset String) then false
  else 5 * ((pyWords str1).toFinset ∩ (pyWords str2).toFinset).card >
    4 * ((pyWords str1).toFinset ∪ (pyWords str2).toFinset).card

/-- `JobDeduplicator._is_similar_job`: the job is a near-duplicate of some
already-accepted job (same lower-cased trimmed company and title similarity
strictly above `0.8`). -/
def is_similar_job (job : Job) (existing_jobs : List Job) : Bool :=
  let job_title := pyStrip (pyLower job.title)
  let job_company := pyStrip (pyLower job.company)
  if job_title = "" ∨ job_company = "" then false
  else
    existing_jobs.any (fun e =>
      let existing_title := pyStrip (pyLower e.title)
      let existing_company := pyStrip (pyLower e.company)
      job_company = existing_company ∧ similarity_gt job_title existing_title)

/-- The loop body of `JobDeduplicator.deduplicate_jobs`.  `seen` is the
growing `seen_urls` set (modelled as a list, membership only) and
`accepted` is the `unique_jobs` list accumulated so far; the function
returns the records accepted from the remaining input, in order. -/
def dedupGo (seen : List String) (accepted : List Job) : List Job → List Job
  | [] => []
  | job :: rest =>
    let apply_url := pyStrip job.apply_url
    if apply_url = "" then dedupGo seen accepted rest
    else if apply_url ∈ seen then dedupGo seen accepted rest
    else if is_similar_job job accepted then dedupGo seen accepted rest
    else job :: dedupGo (apply_url :: seen) (accepted ++ [job]) rest

/-- `JobDeduplicator.deduplicate_jobs`: `seen_urls` starts as a copy of the
externally supplied `existing_urls`, `unique_jobs` starts empty. -/
def deduplicate_jobs (jobs : List Job) (existing_urls : List String) : List Job :=
  dedupGo existing_urls [] jobs

/-- The integer comparison `similarity_gt` is exactly the Python comparison
`_similarity_score(str1, str2) > 0.8` on the rational-valued score. -/
theorem similarity_gt_iff (str1 str2 : String) :
    similarity_gt str1 str2 = true ↔ similarity_score str1 str2 > 4/5 := by
  unfold similarity_gt similarity_score
  by_cases h1 : str1 = "" ∨ str2 = ""
  · simp only [h1, if_true]
    norm_num
  · simp only [h1, if_false]
    by_cases h2 : (pyWords str1).toFinset = (∅ : Finset String) ∨
      (pyWords str2).toFinset = (∅ : Finset String)
    · simp only [h2, if_true]
      norm_num
    · simp only [h2, if_false]
      push_neg at h2
      have hb : 0 < (((pyWords str1).toFinset ∪ (pyWords str2).toFinset).card : ℚ) := by
        have hne : ((pyWords str1).toFinset ∪ (pyWords str2).toFinset).Nonempty := by
          rcases Finset.nonempty_iff_ne_empty.mpr h2.1 with ⟨x, hx⟩
          exact ⟨x, Finset.mem_union_left _ hx⟩
        exact_mod_cast Finset.card_pos.mpr hne
      rw [decide_eq_true_iff]
      constructor
      · intro h
        show (4:ℚ)/5 < _
        rw [div_lt_div_iff₀ (by norm_num) hb]
        have h' : (4 * (((pyWords str1).toFinset ∪ (pyWords str2).toFinset).card : ℚ)) <
            5 * (((pyWords str1).toFinset ∩ (pyWords str2).toFinset).card : ℚ) := by
          exact_mod_cast h
        nlinarith
      · intro h
        have h' : (4:ℚ)/5 < ((((pyWords str1).toFinset ∩ (pyWords str2).toFinset).card : ℚ)) /
            ((((pyWords str1).toFinset ∪ (pyWords str2).toFinset).card : ℚ)) := h
        rw [div_lt_div_iff₀ (by norm_num) hb] at h'
        have h'' : (4 * (((pyWords str1).toFinset ∪ (pyWords str2).toFinset).card : ℚ)) <
            5 * (((pyWords str1).toFinset ∩ (pyWords str2).toFinset).card : ℚ) := by nlinarith
        exact_mod_cast h''

/-- Each deduplicator output, viewed as a sublist of the input. -/
theorem dedupGo_sublist (seen : List String) (acc : List Job) (jobs : List Job) :
    (dedupGo seen acc jobs).Sublist jobs := by
  induction jobs generalizing seen acc with
  | nil => simp [dedupGo]
  | cons j rest ih =>
    simp only [dedupGo]
    split
    · exact (ih _ _).cons _
    · split
      · exact (ih _ _).cons _
      · split
        · exact (ih _ _).cons _
        · exact (ih _ _).cons₂ _

/-- Invariant established by one deduplicator pass: each record in the
output has a non-empty trimmed apply URL that is not in `seen`, is not a
near-duplicate of the records accepted before it, and the tail satisfies
the same property with the state updated the way `deduplicate_jobs`
updates it. -/
def DedupOk (seen : List String) (acc : List Job) : List Job → Prop
  | [] => True
  | j :: rest =>
    pyStrip j.apply_url ≠ "" ∧ pyStrip j.apply_url ∉ seen ∧
    is_similar_job j acc = false ∧
    DedupOk (pyStrip j.apply_url :: seen) (acc ++ [j]) rest

theorem dedupGo_ok (jobs : List Job) (seen : List String) (acc : List Job) :
    DedupOk seen acc (dedupGo seen acc jobs) := by
  induction jobs generalizing seen acc with
  | nil => trivial
  | cons j rest ih =>
    simp only [dedupGo]
    split
    · exact ih _ _
    · split
      · exact ih _ _
      · split
        · exact ih _ _
        · rename_i h1 h2 h3
          exact ⟨h1, h2, eq_false_of_ne_true h3, ih _ _⟩

/-- A batch satisfying the pass invariant is returned unchanged. -/
theorem dedupOk_fixed (out : List Job) (seen : List String) (acc : List Job)
    (h : DedupOk seen acc out) : dedupGo seen acc out = out := by
  induction out generalizing seen acc with
  | nil => rfl
  | cons j rest ih =>
    obtain ⟨h1, h2, h3, hrest⟩ := h
    simp only [dedupGo]
    rw [if_neg h1, if_neg h2, if_neg (by simp [h3]), ih _ _ hrest]

theorem dedupOk_mono (out : List Job) (seen seen' : List String) (acc : List Job)
    (hsub : ∀ u, u ∈ seen' → u ∈ seen) (h : DedupOk seen acc out) :
    DedupOk seen' acc out := by
  induction out generalizing seen seen' acc with
  | nil => trivial
  | cons j rest ih =>
    obtain ⟨h1, h2, h3, hrest⟩ := h
    refine ⟨h1, fun hm => h2 (hsub _ hm), h3, ih _ _ _ ?_ hrest⟩
    intro u hu
    rcases List.mem_cons.mp hu with h | h
    · exact h ▸ List.mem_cons_self _ _
    · exact List.mem_cons_of_mem _ (hsub _ h)

theorem dedupOk_mem (out : List Job) (seen : List String) (acc : List Job)
    (h : DedupOk seen acc out) :
    ∀ j ∈ out, pyStrip j.apply_url ≠ "" ∧ pyStrip j.apply_url ∉ seen := by
  induction out generalizing seen acc with
  | nil => intro j hj; cases hj
  | cons a rest ih =>
    obtain ⟨h1, h2, h3, hrest⟩ := h
    intro j hj
    rcases List.mem_cons.mp hj with rfl | hm
    · exact ⟨h1, h2⟩
    · obtain ⟨hne, hnotin⟩ := ih _ _ hrest j hm
      exact ⟨hne, fun hmem => hnotin (List.mem_cons_of_mem _ hmem)⟩

theorem dedupOk_pairwise (out : List Job) (seen : List String) (acc : List Job)
    (h : DedupOk seen acc out) :
    out.Pairwise (fun a b => pyStrip a.apply_url ≠ pyStrip b.apply_url) := by
  induction out generalizing seen acc with
  | nil => exact List.Pairwise.nil
  | cons a rest ih =>
    obtain ⟨h1, h2, h3, hrest⟩ := h
    refine List.Pairwise.cons ?_ (ih _ _ hrest)
    intro b hb heq
    exact (dedupOk_mem rest _ _ hrest b hb).2 (heq ▸ List.mem_cons_self _ _)

/-! ## Claims C3, C5, C6, C7 about the deduplicator -/

/-- Near-duplicate scenario of C3: same company, similar titles, distinct
apply URLs. -/
def c3_job1 : Job :=
  { title := "Backend Engineer", company := "TechCorp", apply_url := "https://jobs.techcorp.com/1" }

def c3_job2 : Job :=
  { title := "Backend Engineer (Remote)", company := "TechCorp",
    apply_url := "https://jobs.techcorp.com/2" }

def c3_job3 : Job :=
  { title := "Frontend Designer", company := "TechCorp",
    apply_url := "https://jobs.techcorp.com/3" }

def c3_job4 : Job :=
  { title := "Backend Engineer", company := "TechCorp",
    apply_url := "https://jobs.techcorp.com/4" }

/-- C3 counterexample: the claim says the record titled
"Backend Engineer (Remote)" is dropped as a near-duplicate of
"Backend Engineer" (same company, different URL) because their token-set
Jaccard similarity would be at least 0.8.  In fact the word sets are
`{backend, engineer}` and `{backend, engineer, (remote)}` — the
parenthesised token does not equal `remote` — giving similarity 2/3, which
is not above the 0.8 threshold, so the deduplicator keeps both records. -/
theorem C3_counterexample :
    deduplicate_jobs [c3_job1, c3_job2] [] = [c3_job1, c3_job2] ∧
    similarity_score "backend engineer" "backend engineer (remote)" = 2/3 := by
  constructor
  · decide
  · have hi : ((pyWords "backend engineer").toFinset ∩
        (pyWords "backend engineer (remote)").toFinset).card = 2 := by decide
    have hu : ((pyWords "backend engineer").toFinset ∪
        (pyWords "backend engineer (remote)").toFinset).card = 3 := by decide
    unfold similarity_score
    rw [if_neg (by decide), if_neg (by decide), hi, hu]
    norm_num

/-- C3 amended: with titles "Backend Engineer" and "Backend Engineer (Remote)"
(same company, different URLs) the token-set Jaccard similarity is 2/3, which
does not exceed the 0.8 threshold, so BOTH records are kept; titles
"Backend Engineer" vs "Frontend Designer" similarly keep both; only an
identically-titled record (similarity 1 > 0.8) is dropped as a near-duplicate. -/
theorem C3_near_duplicate :
    deduplicate_jobs [c3_job1, c3_job2] [] = [c3_job1, c3_job2] ∧
    ¬ (similarity_score "backend engineer" "backend engineer (remote)" > 4/5) ∧
    deduplicate_jobs [c3_job1, c3_job3] [] = [c3_job1, c3_job3] ∧
    deduplicate_jobs [c3_job1, c3_job4] [] = [c3_job1] := by
  refine ⟨by decide, ?_, by decide, by decide⟩
  intro hgt
  have : similarity_gt "backend engineer" "backend engineer (remote)" = false := by decide
  rw [(similarity_gt_iff _ _).mpr hgt] at this
  cases this

/-- A record whose raw apply URL carries trailing whitespace. -/
def c5_job : Job :=
  { title := "Data Engineer", company := "Acme", apply_url := "https://jobs.acme.com/7 " }

/-- C5 counterexample: the claim says no output record's `apply_url` is in
the supplied known-URL set.  The membership test is performed on the
TRIMMED URL, so a record whose raw URL (with trailing whitespace) is
itself a member of the known set is still accepted and emitted. -/
theorem C5_counterexample :
    deduplicate_jobs [c5_job] ["https://jobs.acme.com/7 "] = [c5_job] ∧
    c5_job.apply_url ∈ ["https://jobs.acme.com/7 "] := by
  decide

/-- C5 amended: every output record has a non-empty trimmed `apply_url`,
no two output records share an `apply_url`, and no output record's TRIMMED
`apply_url` is a member of the supplied known-URL set. -/
theorem C5_url_invariant (jobs : List Job) (existing : List String) :
    (∀ j ∈ deduplicate_jobs jobs existing, pyStrip j.apply_url ≠ "") ∧
    (deduplicate_jobs jobs existing).Pairwise (fun a b => a.apply_url ≠ b.apply_url) ∧
    (∀ j ∈ deduplicate_jobs jobs existing, pyStrip j.apply_url ∉ existing) := by
  have hok := dedupGo_ok jobs existing []
  refine ⟨fun j hj => (dedupOk_mem _ _ _ hok j hj).1, ?_,
    fun j hj => (dedupOk_mem _ _ _ hok j hj).2⟩
  exact (dedupOk_pairwise _ _ _ hok).imp (fun h heq => h (by rw [heq]))

/-- C6: the deduplicator's output is a subsequence of its input — it
preserves the relative order of the input records, restricted to the
accepted ones. -/
theorem C6_order_preservation (jobs : List Job) (existing : List String) :
    (deduplicate_jobs jobs existing).Sublist jobs :=
  dedupGo_sublist existing [] jobs

/-- C7: the deduplicator is idempotent — running `deduplicate_jobs` on its
own output with an empty external URL set returns that output unchanged. -/
theorem C7_dedup_idempotent (jobs : List Job) (existing : List String) :
    deduplicate_jobs (deduplicate_jobs jobs existing) [] = deduplicate_jobs jobs existing := by
  unfold deduplicate_jobs
  exact dedupOk_fixed _ _ _
    (dedupOk_mono _ existing [] [] (fun u hu => absurd hu (List.not_mem_nil u))
      (dedupGo_ok jobs existing []))

/-! ## Domain classifiers
(`src/backend/services/job_classifier.py` and `src/backend/job_classifier.py`) -/

/-- Prefix match for a regex pattern consisting only of literal characters
and the `.` wildcard (matching any character except a newline) — the only
regex constructs occurring in the unescaped keyword catalogue of
`services/job_classifier.py` (`.net`, `node.js`, `next.js`). -/
def matchPrefixDot : List Char → List Char → Bool
  | [], _ => true
  | _ :: _, [] => false
  | p :: ps, c :: cs => (if p = '.' then c ≠ '\n' else p = c) && matchPrefixDot ps cs

/-- Count of non-overlapping, leftmost matches, `len(re.findall(...))`
style: scan left to right, on a match at the current position skip the
pattern length, otherwise advance one character.  `fuel` starts at the
text length, which the remaining text never exceeds. -/
def countFuel (pm : List Char → Bool) (patLen : ℕ) : ℕ → List Char → ℕ
  | 0, _ => 0
  | _, [] => 0
  | fuel + 1, c :: t =>
    if pm (c :: t) then 1 + countFuel pm patLen fuel (List.drop (patLen - 1) t)
    else countFuel pm patLen fuel t

/-- `len(re.findall(pat, s))` for an UNESCAPED pattern of literals and `.`
(the `services` classifier).  An empty pattern yields `len(s) + 1` as in
Python. -/
def countRe (pat s : String) : ℕ :=
  if pat.data = [] then s.data.length + 1
  else countFuel (matchPrefixDot pat.data) pat.data.length s.data.length s.data

/-- `len(re.findall(re.escape(pat), s))` — literal substring occurrences,
non-overlapping, leftmost (the `backend` classifier escapes its keywords). -/
def countLit (pat s : String) : ℕ :=
  if pat.data = [] then s.data.length + 1
  else countFuel (fun l => pat.data.isPrefixOf l) pat.data.length s.data.length s.data

/-- `self.domain_keywords` of `services/job_classifier.py` (`JobClassifier`),
with the `JobDomain` enum members replaced by their string values. -/
def services_domain_keywords : List (String × List String) := [
  ("DevOps", ["devops", "infrastructure", "deployment", "ci/cd", "docker", "kubernetes",
    "ansible", "terraform", "jenkins", "pipeline", "automation", "sre",
    "site reliability", "monitoring", "observability"]),
  ("Cloud/AWS", ["aws", "azure", "gcp", "google cloud", "cloud", "serverless", "lambda",
    "ec2", "s3", "cloudformation", "cloud architect", "cloud engineer"]),
  ("Java", ["java", "spring", "hibernate", "maven", "gradle", "jvm", "scala",
    "kotlin", "spring boot", "microservices java"]),
  ("Backend", ["backend", "api", "server", "database", "sql", "microservices",
    "rest", "graphql", "node.js", "python", "go", "rust", "c#", ".net",
    "ruby", "php", "backend developer", "server-side"]),
  ("Frontend", ["frontend", "react", "vue", "angular", "javascript", "typescript",
    "html", "css", "ui", "user interface", "web developer", "frontend developer",
    "next.js", "nuxt", "svelte", "ember"]),
  ("Data/ML", ["data scientist", "machine learning", "ml", "ai", "artificial intelligence",
    "data engineer", "data analyst", "python data", "tensorflow", "pytorch",
    "pandas", "numpy", "sql data", "etl", "data pipeline", "analytics",
    "big data", "spark", "hadoop"]),
  ("QA", ["qa", "quality assurance", "test", "testing", "automation testing",
    "selenium", "cypress", "jest", "qa engineer", "test engineer",
    "quality engineer", "sdet", "test automation"]),
  ("PM", ["product manager", "project manager", "program manager", "scrum master",
    "product owner", "agile", "pm", "product management", "project management"])]

/-- `self.domain_keywords` of `backend/job_classifier.py` (`JobClassifier`). -/
def backend_domain_keywords : List (String × List String) := [
  ("DevOps", ["devops", "dev ops", "infrastructure", "deployment", "ci/cd", "docker",
    "kubernetes", "k8s", "ansible", "terraform", "jenkins", "pipeline", "automation",
    "sre", "site reliability", "monitoring", "observability", "prometheus", "grafana",
    "helm", "microservices infrastructure"]),
  ("Cloud/AWS", ["aws", "amazon web services", "ec2", "s3", "lambda", "cloudformation",
    "cloud architect", "cloud engineer", "aws devops", "aws developer", "serverless",
    "cloudwatch"]),
  ("Azure", ["azure", "microsoft azure", "azure devops", "azure architect",
    "azure developer", "azure cloud", "office 365", "power platform", "azure functions"]),
  ("GCP", ["gcp", "google cloud", "google cloud platform", "gke", "cloud run", "bigquery",
    "gcp engineer", "gcp architect", "firebase"]),
  ("Java", ["java", "spring", "spring boot", "hibernate", "maven", "gradle", "jvm",
    "scala", "kotlin", "microservices java", "java developer", "java engineer"]),
  ("Python", ["python", "django", "flask", "fastapi", "pandas", "numpy",
    "python developer", "python engineer", "python backend", "pytest"]),
  ("React", ["react", "reactjs", "react.js", "next.js", "nextjs", "redux",
    "react native", "react developer", "react engineer", "frontend react"]),
  ("Full Stack", ["full stack", "fullstack", "full-stack", "mern", "mean", "lamp",
    "javascript developer", "web developer", "frontend backend", "end to end developer"]),
  ("Android", ["android", "android developer", "kotlin android", "java android",
    "android engineer", "mobile android", "android app", "flutter", "react native"]),
  ("iOS", ["ios", "ios developer", "swift", "objective-c", "iphone", "ipad",
    "ios engineer", "mobile ios", "ios app development"]),
  ("Backend", ["backend", "back-end", "api", "server", "database", "sql",
    "microservices", "rest", "graphql", "node.js", "nodejs", "go", "rust", "c#",
    ".net", "ruby", "php", "backend developer", "server-side", "backend engineer"]),
  ("Frontend", ["frontend", "front-end", "vue", "vuejs", "angular", "angularjs",
    "javascript", "typescript", "html", "css", "scss", "sass", "ui", "user interface",
    "web developer", "frontend developer", "svelte", "ember", "webpack", "vite"]),
  ("Data/ML", ["data scientist", "data science", "machine learning", "ml", "ai",
    "artificial intelligence", "data engineer", "data analyst", "python data",
    "tensorflow", "pytorch", "pandas", "numpy", "sql data", "etl", "data pipeline",
    "analytics", "big data", "spark", "hadoop", "kafka", "airflow", "snowflake"]),
  ("PowerBI", ["power bi", "powerbi", "power platform", "dax", "power query",
    "microsoft bi", "business intelligence", "data visualization", "reporting analyst"]),
  ("Tableau", ["tableau", "tableau developer", "data visualization", "dashboard",
    "analytics", "business intelligence", "tableau analyst"]),
  ("QA", ["qa", "quality assurance", "test", "testing", "automation testing",
    "selenium", "cypress", "jest", "qa engineer", "test engineer", "quality engineer",
    "sdet", "test automation", "manual testing"]),
  ("PM", ["product manager", "project manager", "program manager", "scrum master",
    "product owner", "agile", "pm", "product management", "project management",
    "technical program manager", "engineering manager"]),
  ("SAP", ["sap", "sap consultant", "sap developer", "sap analyst", "sap implementation",
    "sap fico", "sap mm", "sap sd", "sap hana", "sap s/4hana"]),
  ("Security", ["security", "cybersecurity", "information security", "security engineer",
    "security analyst", "penetration testing", "security architect", "devsecops"])]

/-- The per-domain score loop shared by both classifiers:
`Σ_keywords  weight·(title matches) + (description matches)`, all strings
lower-cased. -/
def scoreFor (weight : ℕ) (count : String → String → ℕ) (keywords : List String)
    (title description : String) : ℕ :=
  (keywords.map (fun k =>
    weight * count (pyLower k) (pyLower title) + count (pyLower k) (pyLower description))).sum

/-- Python's `max(items, key=lambda x: x[1])` on an association list:
fold keeping the current element unless a LATER element is strictly
greater, i.e. the first element attaining the maximum. -/
def pyMaxBySnd : List (String × ℕ) → Option (String × ℕ)
  | [] => none
  | x :: xs => some (xs.foldl (fun b y => if y.2 > b.2 then y else b) x)

/-- The tail shared by both `classify_job` versions: the `domain_scores`
dict (positive-score domains in catalogue order) followed by
`max(domain_scores.items(), key=lambda x: x[1])[0]` when it is non-empty,
else `'Other'`. -/
def selectBest (scored : List (String × ℕ)) : String :=
  match pyMaxBySnd (scored.filter (fun x => 0 < x.2)) with
  | some best => best.1
  | none => "Other"

/-- `JobClassifier.classify_job` of `services/job_classifier.py`: per-domain
scores with title weight 3 and unescaped regex keyword counting, then
`selectBest`. -/
def services_classify_job (j : Job) : String :=
  selectBest (services_domain_keywords.map
    (fun p => (p.1, scoreFor 3 countRe p.2 j.title j.description)))

/-- `JobClassifier.classify_job` of `backend/job_classifier.py`: identical
structure but title weight 5, `re.escape`d (literal) keyword counting and
the larger catalogue. -/
def classify_job (j : Job) : String :=
  selectBest (backend_domain_keywords.map
    (fun p => (p.1, scoreFor 5 countLit p.2 j.title j.description)))


/-- Maximum of the score components of an association list (0 if empty). -/
def maxSnd : List (String × ℕ) → ℕ
  | [] => 0
  | x :: t => max x.2 (maxSnd t)

/-- Selection as the spec words it: "keep only domains with score > 0;
return the domain with the maximum score, ties broken by catalogue
iteration order (first-seen wins); if no domain scores above zero, assign
the default \"Other\" tag."  Specification side of the C1 refinement. -/
def spec_select (scored : List (String × ℕ)) : String :=
  if maxSnd scored = 0 then "Other"
  else
    match scored.find? (fun y => y.2 == maxSnd scored) with
    | some p => p.1
    | none => "Other"

theorem le_maxSnd {l : List (String × ℕ)} {x : String × ℕ} (hx : x ∈ l) : x.2 ≤ maxSnd l := by
  induction l with
  | nil => cases hx
  | cons a t ih =>
    rcases List.mem_cons.mp hx with rfl | hm
    · exact le_max_left _ _
    · exact le_trans (ih hm) (le_max_right _ _)

theorem maxSnd_attained (l : List (String × ℕ)) :
    maxSnd l = 0 ∨ ∃ x ∈ l, x.2 = maxSnd l := by
  induction l with
  | nil => exact Or.inl rfl
  | cons a t ih =>
    by_cases h : maxSnd t ≤ a.2
    · right
      exact ⟨a, List.mem_cons_self _ _, (max_eq_left h).symm⟩
    · rcases ih with h0 | ⟨x, hx, hx2⟩
      · right
        refine ⟨a, List.mem_cons_self _ _, ?_⟩
        simp [maxSnd, h0]
      · right
        refine ⟨x, List.mem_cons_of_mem _ hx, ?_⟩
        rw [hx2]
        exact (max_eq_right (le_of_not_le h)).symm

theorem foldl_firstMax (l : List (String × ℕ)) :
    ∀ x : String × ℕ,
      some (l.foldl (fun b y => if y.2 > b.2 then y else b) x) =
        (x :: l).find? (fun y => y.2 == maxSnd (x :: l)) := by
  induction l with
  | nil =>
    intro x
    simp [maxSnd, List.find?]
  | cons y t ih =>
    intro x
    simp only [List.foldl_cons]
    by_cases hgt : y.2 > x.2
    · rw [if_pos hgt]
      rw [ih y]
      have hmx : maxSnd (x :: y :: t) = maxSnd (y :: t) := by
        simp only [maxSnd]
        have : x.2 ≤ max y.2 (maxSnd t) := le_trans (le_of_lt hgt) (le_max_left _ _)
        omega
      rw [hmx]
      have hx : (x.2 == maxSnd (y :: t)) = false := by
        have : x.2 < maxSnd (y :: t) :=
          lt_of_lt_of_le hgt (le_max_left _ _)
        simp [Nat.ne_of_lt this]
      conv_rhs => rw [List.find?_cons]
      simp only [hx]
    · rw [if_neg hgt]
      rw [ih x]
      have hyx : y.2 ≤ x.2 := le_of_not_lt hgt
      have hmx : maxSnd (x :: y :: t) = maxSnd (x :: t) := by
        simp only [maxSnd]
        omega
      rw [hmx]
      by_cases hx : x.2 = maxSnd (x :: t)
      · conv_lhs => rw [List.find?_cons]
        conv_rhs => rw [List.find?_cons]
        simp [hx]
      · have hxf : (x.2 == maxSnd (x :: t)) = false := by simp [hx]
        have hxlt : x.2 < maxSnd (x :: t) := by
          have : x.2 ≤ maxSnd (x :: t) := le_maxSnd (List.mem_cons_self _ _)
          omega
        have hyf : (y.2 == maxSnd (x :: t)) = false := by
          have : y.2 < maxSnd (x :: t) := lt_of_le_of_lt hyx hxlt
          simp [Nat.ne_of_lt this]
        conv_lhs => rw [List.find?_cons]
        conv_rhs => rw [List.find?_cons]
        simp only [hxf]
        conv_rhs => rw [List.find?_cons]
        simp only [hyf]

theorem maxSnd_filter_pos (l : List (String × ℕ)) :
    maxSnd (l.filter (fun x => 0 < x.2)) = maxSnd l := by
  induction l with
  | nil => rfl
  | cons a t ih =>
    by_cases h : 0 < a.2
    · rw [List.filter_cons_of_pos (by simpa using h)]
      simp only [maxSnd, ih]
    · rw [List.filter_cons_of_neg (by simpa using h)]
      have : a.2 = 0 := by omega
      simp only [maxSnd, ih, this]
      omega

theorem find?_filter_pos (l : List (String × ℕ)) (M : ℕ) (hM : 0 < M) :
    (l.filter (fun x => 0 < x.2)).find? (fun y => y.2 == M) =
      l.find? (fun y => y.2 == M) := by
  induction l with
  | nil => rfl
  | cons a t ih =>
    by_cases h : 0 < a.2
    · rw [List.filter_cons_of_pos (by simpa using h)]
      rw [List.find?_cons, List.find?_cons]
      cases hbe : (a.2 == M) <;> simp [hbe, ih]
    · rw [List.filter_cons_of_neg (by simpa using h)]
      have ha : a.2 = 0 := by omega
      have : (a.2 == M) = false := by
        simp [ha]
        omega
      rw [List.find?_cons, this, ih]

theorem pyMax_filter_eq_spec (scored : List (String × ℕ)) :
    selectBest scored = spec_select scored := by
  unfold selectBest
  by_cases hM : maxSnd scored = 0
  · have hfil : scored.filter (fun x => 0 < x.2) = [] := by
      rw [List.filter_eq_nil_iff]
      intro a ha
      have := le_maxSnd ha
      simp only [hM, Nat.le_zero] at this
      simp [this]
    rw [hfil]
    simp [pyMaxBySnd, spec_select, hM]
  · have hpos : 0 < maxSnd scored := Nat.pos_of_ne_zero hM
    obtain ⟨p, hp, hp2⟩ := (maxSnd_attained scored).resolve_left hM
    have hpfil : p ∈ scored.filter (fun x => 0 < x.2) :=
      List.mem_filter.mpr ⟨hp, by simp [hp2, hpos]⟩
    obtain ⟨f, fs, hffs⟩ : ∃ f fs, scored.filter (fun x => 0 < x.2) = f :: fs := by
      cases hc : scored.filter (fun x => 0 < x.2) with
      | nil => rw [hc] at hpfil; cases hpfil
      | cons f fs => exact ⟨f, fs, rfl⟩
    have hmaxfil : maxSnd (f :: fs) = maxSnd scored := by
      rw [← hffs]
      exact maxSnd_filter_pos scored
    rw [hffs]
    simp only [pyMaxBySnd]
    have hfold := foldl_firstMax fs f
    rw [hmaxfil] at hfold
    have hfind : (f :: fs).find? (fun y => y.2 == maxSnd scored) =
        scored.find? (fun y => y.2 == maxSnd scored) := by
      rw [← hffs]
      exact find?_filter_pos scored (maxSnd scored) hpos
    rw [hfind] at hfold
    unfold spec_select
    rw [if_neg hM]
    rcases hsc : scored.find? (fun y => y.2 == maxSnd scored) with _ | q
    · rw [hsc] at hfold; cases hfold
    · rw [hsc] at hfold
      simp only [Option.some.injEq] at hfold
      rw [hsc]
      simp [hfold]


/-- The spec's description of `classify_job`, parameterised by the title
weight, the occurrence counter and the catalogue: per-domain weighted
keyword score, then `spec_select`. -/
def spec_classify (weight : ℕ) (count : String → String → ℕ)
    (catalogue : List (String × List String)) (j : Job) : String :=
  spec_select (catalogue.map (fun p => (p.1, scoreFor weight count p.2 j.title j.description)))

/-- A record where the title weight decides the winner: title "java"
scores 1 title occurrence for Java, description "qa qa qa qa" scores 4
description occurrences for QA, and no other keyword matches. -/
def c1_job : Job := { title := "java", description := "qa qa qa qa" }

set_option maxHeartbeats 2000000 in
/-- C1 counterexample: the claim says the Domain Classifier weights title
occurrences by 5.  The classifier the pipeline imports
(`services/job_classifier.py`, used by `run_scraper.py` and `main.py`)
weights them by 3: on `c1_job` it returns "QA" (score 4 beats 3·1 = 3),
whereas the claimed 5× formula would return "Java" (5·1 = 5 beats 4). -/
theorem C1_counterexample :
    services_classify_job c1_job = "QA" ∧
    spec_classify 5 countRe services_domain_keywords c1_job = "Java" := by
  constructor <;> decide

/-- C1 amended: the pipeline's Domain Classifier
(`services/job_classifier.py`) computes per domain
`score = 3×(title keyword occurrences) + 1×(description keyword
occurrences)` and the standalone variant (`backend/job_classifier.py`)
uses weight 5; each returns the domain with the maximum positive score,
first in catalogue order on ties, and "Other" when no score is positive. -/
theorem C1_domain_classifier_weights (j : Job) :
    services_classify_job j = spec_classify 3 countRe services_domain_keywords j ∧
    classify_job j = spec_classify 5 countLit backend_domain_keywords j := by
  constructor
  · unfold services_classify_job spec_classify
    exact pyMax_filter_eq_spec _
  · unfold classify_job spec_classify
    exact pyMax_filter_eq_spec _

/-! ## Remote Classifier (`src/backend/enhanced_remote_detector.py`) -/

/-- Remote-detection configuration: `remote_keywords['strict']`,
`remote_keywords['flexible']` and `company_remote_flags` as loaded by
`EnhancedRemoteDetector.load_remote_config` from `sources.yaml`, or the
hard-coded fallbacks. -/
structure RemoteConfig where
  strict : List String
  flexible : List String
  company_flags : List (String × String)

/-- The fallback configuration built when `sources.yaml` cannot be read. -/
def fallbackRemoteConfig : RemoteConfig :=
  { strict := ["remote", "100% remote", "fully remote", "distributed", "work from anywhere"],
    flexible := ["work from home", "wfh", "remote friendly", "telecommute", "virtual"],
    company_flags := [("gitlab", "always_remote"), ("automattic", "always_remote"),
      ("zapier", "always_remote"), ("buffer", "always_remote")] }

/-- `EnhancedRemoteDetector._get_searchable_text_safe`:
`' '.join([title, description, location]).lower()` with `None` fields
already modelled as empty strings. -/
def searchable_text (j : Job) : String :=
  pyLower (j.title ++ " " ++ j.description ++ " " ++ j.location)

/-- The fixed `remote_locations` token list of `is_remote_job` step 5. -/
def remote_locations : List String :=
  ["remote", "anywhere", "worldwide", "global", "distributed", "work from home", "virtual"]

/-- `EnhancedRemoteDetector.is_remote_job`: company override, then strict
keywords, then ≥ 2 flexible keywords, then location tokens (only for a
non-empty location), then "remote" in the title. -/
def is_remote_job (cfg : RemoteConfig) (j : Job) : Bool :=
  if cfg.company_flags.any
      (fun p => containsSub (pyLower j.company) p.1 && p.2 == "always_remote") then true
  else if cfg.strict.any (fun k => containsSub (searchable_text j) (pyLower k)) then true
  else if 2 ≤ (cfg.flexible.filter
      (fun k => containsSub (searchable_text j) (pyLower k))).length then true
  else if pyLower j.location ≠ "" &&
      remote_locations.any (fun loc => containsSub (pyLower j.location) loc) then true
  else if containsSub (pyLower j.title) "remote" then true
  else false

theorem two_mem_le_length {α : Type} {l : List α} {a b : α}
    (ha : a ∈ l) (hb : b ∈ l) (hne : a ≠ b) : 2 ≤ l.length := by
  cases l with
  | nil => cases ha
  | cons x t =>
    cases t with
    | nil =>
      simp only [List.mem_singleton] at ha hb
      exact absurd (ha.trans hb.symm) hne
    | cons y u => simp only [List.length_cons]; omega

/-- C4: with no company override, no strict keyword, exactly one flexible
keyword match, no remote location token and no "remote" in the title, the
record is NOT remote; any two distinct matching flexible keywords make it
remote. -/
theorem C4_remote_tier_logic (cfg : RemoteConfig) (j : Job) :
    ((∀ p ∈ cfg.company_flags,
        ¬ (containsSub (pyLower j.company) p.1 = true ∧ p.2 = "always_remote")) →
      (∀ k ∈ cfg.strict, containsSub (searchable_text j) (pyLower k) = false) →
      (cfg.flexible.filter
        (fun k => containsSub (searchable_text j) (pyLower k))).length = 1 →
      (∀ loc ∈ remote_locations, containsSub (pyLower j.location) loc = false) →
      containsSub (pyLower j.title) "remote" = false →
      is_remote_job cfg j = false) ∧
    (∀ k₁ k₂, k₁ ∈ cfg.flexible → k₂ ∈ cfg.flexible → k₁ ≠ k₂ →
      containsSub (searchable_text j) (pyLower k₁) = true →
      containsSub (searchable_text j) (pyLower k₂) = true →
      is_remote_job cfg j = true) := by
  constructor
  · intro h1 h2 h3 h4 h5
    have hc : cfg.company_flags.any
        (fun p => containsSub (pyLower j.company) p.1 && p.2 == "always_remote") = false := by
      rw [List.any_eq_false]
      intro p hp
      simp only [Bool.and_eq_true, beq_iff_eq]
      exact fun hcp => h1 p hp ⟨hcp.1, hcp.2⟩
    have hs : cfg.strict.any (fun k => containsSub (searchable_text j) (pyLower k)) = false := by
      rw [List.any_eq_false]
      intro k hk
      simp [h2 k hk]
    have hl : remote_locations.any (fun loc => containsSub (pyLower j.location) loc) = false := by
      rw [List.any_eq_false]
      intro loc hloc
      simp [h4 loc hloc]
    simp [is_remote_job, hc, hs, h3, hl, h5]
  · intro k₁ k₂ hk₁ hk₂ hne hm₁ hm₂
    by_cases hc : cfg.company_flags.any
        (fun p => containsSub (pyLower j.company) p.1 && p.2 == "always_remote") = true
    · simp [is_remote_job, hc]
    · by_cases hs : cfg.strict.any
          (fun k => containsSub (searchable_text j) (pyLower k)) = true
      · simp [is_remote_job, hs]
      · have hflex : 2 ≤ (cfg.flexible.filter
            (fun k => containsSub (searchable_text j) (pyLower k))).length :=
          two_mem_le_length (List.mem_filter.mpr ⟨hk₁, hm₁⟩)
            (List.mem_filter.mpr ⟨hk₂, hm₂⟩) hne
        simp [is_remote_job, hc, hs, hflex]

/-- A record with exactly one flexible ("telecommute") signal and nothing
else remote-indicative. -/
def c4_job1 : Job :=
  { title := "Support Specialist", company := "Acme Corp",
    description := "telecommute option available", location := "Bangalore" }

/-- The same record with two distinct flexible signals ("wfh" and
"telecommute"). -/
def c4_job2 : Job :=
  { title := "Support Specialist", company := "Acme Corp",
    description := "wfh or telecommute options", location := "Bangalore" }

/-- Witness for C4 at the fallback configuration and concrete records. -/
theorem C4_remote_tier_logic_witness :
    is_remote_job fallbackRemoteConfig c4_job1 = false ∧
    is_remote_job fallbackRemoteConfig c4_job2 = true := by
  constructor
  · exact (C4_remote_tier_logic fallbackRemoteConfig c4_job1).1
      (by decide) (by decide) (by decide) (by decide) (by decide)
  · exact (C4_remote_tier_logic fallbackRemoteConfig c4_job2).2
      "wfh" "telecommute" (by decide) (by decide) (by decide) (by decide) (by decide)

/-! ## Fetch Client (`src/backend/scrapers/base.py`) -/

/-- What one HTTP GET would produce: a response (status code, content
type, body, and whether the body parses as JSON), or a raised network
error — timeout, connection error, anything the `except` clause catches. -/
inductive HttpEvent where
  | response (status : ℕ) (contentType : String) (body : String) (jsonOk : Bool)
  | netError
deriving DecidableEq, Repr

/-- The value `fetch_url` hands to the adapter: parsed JSON, or raw text
tagged with the requested URL. -/
inductive Payload where
  | jsonData (body : String)
  | textData (text : String) (url : String)
deriving DecidableEq, Repr

set_option linter.unusedVariables false in
/-- `BaseScraper.fetch_url`, modelled against the trace of what successive
GETs of the URL would return (`events`).  `max_retries` is the
`BaseScraper.__init__` parameter (default 3) stored on the instance; the
body of `fetch_url` never reads it.  Returns the payload (`None` on any
failure), the number of HTTP requests issued, and the total time slept
(the mandatory `rate_limit` delay before the request, plus
`rate_limit * 3` after a 429).  An empty trace behaves like a network
error.  A JSON body that fails to parse raises inside `response.json()`,
is caught by the `except` clause and becomes `None`. -/
def fetch_url (rate_limit : ℚ) (max_retries : ℕ) (url : String)
    (events : List HttpEvent) : Option Payload × ℕ × ℚ :=
  match events with
  | [] => (none, 1, rate_limit)
  | e :: _ =>
    match e with
    | .response status ct body jsonOk =>
      if status = 200 then
        if containsSub ct "application/json" then
          if jsonOk then (some (.jsonData body), 1, rate_limit)
          else (none, 1, rate_limit)
        else (some (.textData body url), 1, rate_limit)
      else if status = 429 then (none, 1, rate_limit + rate_limit * 3)
      else (none, 1, rate_limit)
    | .netError => (none, 1, rate_limit)

/-- C2 (code bug): `fetch_url` issues exactly one HTTP request per call —
`max_retries` is stored but never used, so there is no retry and no
exponential backoff: a transient failure on the single attempt returns
`None` even when an immediate retry would have succeeded.  The parts of
the claim that do hold: a 429 sleeps `rate_limit * 3` extra before giving
up, and every failure degrades to `None`, never an exception. -/
theorem C2_fetch_single_attempt (rate_limit : ℚ) (max_retries : ℕ) (url : String) :
    (∀ events, (fetch_url rate_limit max_retries url events).2.1 = 1) ∧
    (∀ body, (fetch_url rate_limit max_retries url
      [.netError, .response 200 "application/json" body true]).1 = none) ∧
    (∀ events, fetch_url rate_limit max_retries url events =
      fetch_url rate_limit 3 url events) ∧
    (∀ ct body jsonOk, fetch_url rate_limit max_retries url
      [.response 429 ct body jsonOk] = (none, 1, rate_limit + rate_limit * 3)) := by
  refine ⟨?_, fun _ => rfl, fun _ => rfl, ?_⟩
  · intro events
    rcases events with _ | ⟨e, t⟩
    · rfl
    · rcases e with ⟨status, ct, body, jsonOk⟩ | _
      · simp only [fetch_url]
        split_ifs <;> rfl
      · rfl
  · intro ct body jsonOk
    simp only [fetch_url]
    norm_num

/-! ## Source adapters: apply-URL handling
(`src/backend/scrapers/greenhouse.py`, `src/backend/scrapers/generic.py`) -/

/-- Join with a separator on character lists (`', '.join`, `' at '.join`). -/
def joinL (sep : List Char) : List (List Char) → List Char
  | [] => []
  | [x] => x
  | x :: y :: t => x ++ sep ++ joinL sep (y :: t)

/-- Python `sep.join(parts)`. -/
def joinStr (sep : String) (parts : List String) : String :=
  ⟨joinL sep.data (parts.map (fun p => p.data))⟩

/-- The fields of one upstream Greenhouse job object that
`GreenHouseScraper._parse_greenhouse_job` reads.  `none` models an absent
key or a `None` value; `offices` holds the office names
(`office.get('name', '')`), an absent or empty `offices` array both being
falsy. -/
structure GreenhouseItem where
  id : Option String := none
  title : Option String := none
  offices : List String := []
  absolute_url : Option String := none
  content : Option String := none
  description : Option String := none
deriving DecidableEq, Repr

/-- The description fallback of `_parse_greenhouse_job`:
`job_data.get('content', '')`, replaced by `job_data['description']` when
the former is falsy and the latter truthy (a falsy `description` leaves
the empty string either way). -/
def greenhouse_description (it : GreenhouseItem) : String :=
  if it.content.getD "" = "" then it.description.getD "" else it.content.getD ""

/-- `GreenHouseScraper._parse_greenhouse_job`, projected onto the fields
the `Job` record carries (the emitted dict's random `id`, its salary
fields — `extract_salary` — and its `remote` flag are not modelled; they
are irrelevant to the apply-URL invariant).  The function unconditionally
returns a record: a missing `absolute_url` yields `apply_url = ""` rather
than discarding the item. -/
def parse_greenhouse_job (company_name : String) (it : GreenhouseItem) : Job :=
  { title := it.title.getD "",
    company := company_name,
    description := ⟨(greenhouse_description it).data.take 2000⟩,
    apply_url := it.absolute_url.getD "",
    location := if it.offices ≠ [] then joinStr ", " it.offices else "" }

/-- `GreenHouseScraper.scrape_jobs` over already-fetched items: every
parsed record is kept, because `_parse_greenhouse_job` always returns a
(truthy) dict. -/
def greenhouse_scrape_jobs (company_name : String) (items : List GreenhouseItem) : List Job :=
  items.map (parse_greenhouse_job company_name)

/-- The upstream fields `GenericScraper._parse_generic_job` probes. -/
structure GenericItem where
  title : Option String := none
  position : Option String := none
  job_title : Option String := none
  company : Option String := none
  company_name : Option String := none
  author : Option String := none
  description : Option String := none
  summary : Option String := none
  job_description : Option String := none
  apply_url : Option String := none
  url : Option String := none
  link : Option String := none
  job_url : Option String := none
  location : Option String := none
  job_location : Option String := none
deriving DecidableEq, Repr

/-- Python truthiness of an optional string: present and non-empty. -/
def pyTruthy (o : Option String) : Bool :=
  match o with
  | some s => s ≠ ""
  | none => false

/-- An `a or b or ... or default` chain: the first truthy value, with the
final falsy operand modelled by the default. -/
def firstTruthyD (l : List (Option String)) (dflt : String) : String :=
  match l.findSome? (fun o => if pyTruthy o then o else none) with
  | some s => s
  | none => dflt

/-- The apply-URL chain of `_parse_generic_job`:
`get('apply_url') or get('url') or get('link') or get('job_url', '')`,
`none` when every operand is falsy. -/
def generic_apply_url (it : GenericItem) : Option String :=
  [it.apply_url, it.url, it.link, it.job_url].findSome?
    (fun o => if pyTruthy o then o else none)

/-- `GenericScraper._parse_generic_job`, projected onto the `Job` fields
(the random `id`, `source`, `source_job_id`, salary and `remote` outputs
are not modelled; the BeautifulSoup HTML-stripping of the description is
not modelled either — none are relevant to the apply-URL invariant).
`none` is Python's `return None` for an item with no resolvable apply
URL. -/
def parse_generic_job (it : GenericItem) : Option Job :=
  match generic_apply_url it with
  | none => none
  | some u =>
    some { title := firstTruthyD [it.title, it.position, it.job_title] "",
           company := firstTruthyD [it.company, it.company_name, it.author] "Unknown",
           description :=
             ⟨(firstTruthyD [it.description, it.summary, it.job_description] "").data.take 2000⟩,
           apply_url := u,
           location := firstTruthyD [it.location, it.job_location] "" }

/-- A Greenhouse item with no `absolute_url`. -/
def c8_gh_item : GreenhouseItem :=
  { id := some "123", title := some "Platform Engineer", offices := ["Bangalore"],
    content := some "Build infra" }

/-- C8 counterexample: the Greenhouse adapter emits a record whose
`apply_url` is empty when the upstream item has no `absolute_url` — the
item is not discarded by the adapter. -/
theorem C8_counterexample :
    ∃ j ∈ greenhouse_scrape_jobs "TechCorp" [c8_gh_item], j.apply_url = "" := by
  decide

theorem findSome?_truthy (l : List (Option String)) (u : String)
    (h : l.findSome? (fun o => if pyTruthy o then o else none) = some u) : u ≠ "" := by
  induction l with
  | nil => cases h
  | cons o t ih =>
    rw [List.findSome?_cons] at h
    by_cases hp : pyTruthy o = true
    · rcases o with _ | s
      · simp [pyTruthy] at hp
      · simp only [hp, if_true] at h
        simp only [Option.some.injEq] at h
        subst h
        simpa [pyTruthy] using hp
    · rw [if_neg hp] at h
      exact ih h

/-- C8 amended: the generic adapter discards any item with no resolvable
apply URL, so every record it emits has a non-empty `apply_url`; the
Greenhouse adapter instead always emits a record whose `apply_url` is the
upstream `absolute_url`, empty when that field is missing (such records
are only dropped later by the deduplicator's defensive check). -/
theorem C8_adapter_url_invariant :
    (∀ it j, parse_generic_job it = some j → j.apply_url ≠ "") ∧
    (∀ name it, (parse_greenhouse_job name it).apply_url = it.absolute_url.getD "") := by
  constructor
  · intro it j h
    unfold parse_generic_job at h
    cases hau : generic_apply_url it with
    | none => rw [hau] at h; cases h
    | some u =>
      rw [hau] at h
      simp only [Option.some.injEq] at h
      have : j.apply_url = u := by rw [← h]
      rw [this]
      exact findSome?_truthy _ _ hau
  · intro name it
    rfl

/-- A generic item carrying a `url` field. -/
def c8_gen_item : GenericItem := { title := some "QA Engineer", url := some "https://ex.com/j/9" }

/-- The record the generic adapter emits for `c8_gen_item`. -/
def c8_gen_job : Job :=
  { title := "QA Engineer", company := "Unknown", description := "",
    apply_url := "https://ex.com/j/9", location := "" }

/-- Witness for C8 at a concrete generic item. -/
theorem C8_adapter_url_invariant_witness :
    parse_generic_job c8_gen_item = some c8_gen_job ∧ c8_gen_job.apply_url ≠ "" :=
  ⟨by decide, C8_adapter_url_invariant.1 c8_gen_item c8_gen_job (by decide)⟩

/-! ## RSS title/company split
(`FixedRemoteOKScraper._parse_rss_entry` in
`src/backend/scrapers/fixed_remoteok.py` and the identical
`WeWorkRemotelyScraper._parse_wwr_job` in
`src/backend/scrapers/remote_boards.py`) -/

/-- Python `title.split(' at ')` scanner: scan left to right, consuming
each leftmost occurrence of `sep` (non-overlapping).  `acc` holds the
current segment reversed; `fuel` starts at the text length, which the
remaining text never exceeds, so the fuel-exhaustion branch is
unreachable on real calls. -/
def splitFuel (sep : List Char) : ℕ → List Char → List Char → List (List Char)
  | 0, acc, l => [acc.reverse ++ l]
  | _ + 1, acc, [] => [acc.reverse]
  | fuel + 1, acc, c :: t =>
    if sep.isPrefixOf (c :: t) then
      acc.reverse :: splitFuel sep fuel [] (List.drop (sep.length - 1) t)
    else splitFuel sep fuel (c :: acc) t

/-- Python `s.split(sep)` for a non-empty separator, as character lists. -/
def splitParts (s sep : String) : List (List Char) :=
  splitFuel sep.data s.data.length [] s.data

/-- The title/company extraction both RSS adapters perform:
`parts = title.split(' at '); company = parts[-1].strip();
title = ' at '.join(parts[:-1]).strip()` when the feed title contains
`' at '` (the inner `len(parts) >= 2` check is implied), else the title
is left alone and the company is `'Unknown'`. -/
def parse_rss_title (title : String) : String × String :=
  if containsSub title " at " then
    if 2 ≤ (splitParts title " at ").length then
      (pyStrip ⟨joinL " at ".data (splitParts title " at ").dropLast⟩,
       pyStrip ⟨(splitParts title " at ").getLastD []⟩)
    else (title, "Unknown")
  else (title, "Unknown")

theorem splitFuel_ne_nil (sep : List Char) (fuel : ℕ) (acc l : List Char) :
    splitFuel sep fuel acc l ≠ [] := by
  induction fuel generalizing acc l with
  | zero => simp [splitFuel]
  | succ fuel ih =>
    cases l with
    | nil => simp [splitFuel]
    | cons c t =>
      simp only [splitFuel]
      split
      · simp
      · exact ih _ _

theorem containsL_nil (sep : List Char) (hsep : sep ≠ []) : containsL [] sep = false := by
  rcases sep with _ | ⟨s, st⟩
  · exact absurd rfl hsep
  · rfl

theorem splitFuel_length_two (sep : List Char) (hsep : sep ≠ []) (fuel : ℕ) :
    ∀ l acc, l.length ≤ fuel → containsL l sep = true →
      2 ≤ (splitFuel sep fuel acc l).length := by
  induction fuel with
  | zero =>
    intro l acc hlen hcon
    have : l = [] := List.length_eq_zero.mp (Nat.le_zero.mp hlen)
    subst this
    rw [containsL_nil sep hsep] at hcon
    cases hcon
  | succ fuel ih =>
    intro l acc hlen hcon
    cases l with
    | nil =>
      rw [containsL_nil sep hsep] at hcon
      cases hcon
    | cons c t =>
      simp only [splitFuel]
      by_cases hp : sep.isPrefixOf (c :: t) = true
      · rw [if_pos hp]
        have hne := splitFuel_ne_nil sep fuel [] (List.drop (sep.length - 1) t)
        cases hrest : splitFuel sep fuel [] (List.drop (sep.length - 1) t) with
        | nil => exact absurd hrest hne
        | cons r rs => simp
      · rw [if_neg hp]
        rw [containsL, if_neg (by simpa using hp)] at hcon
        have hlen' : t.length ≤ fuel := by
          simp only [List.length_cons] at hlen
          omega
        exact ih t (c :: acc) hlen' hcon

theorem splitFuel_join (sep : List Char) (hsep : sep ≠ []) (fuel : ℕ) :
    ∀ l acc, l.length ≤ fuel →
      joinL sep (splitFuel sep fuel acc l) = acc.reverse ++ l := by
  induction fuel with
  | zero =>
    intro l acc hlen
    have : l = [] := List.length_eq_zero.mp (Nat.le_zero.mp hlen)
    subst this
    simp [splitFuel, joinL]
  | succ fuel ih =>
    intro l acc hlen
    cases l with
    | nil => simp [splitFuel, joinL]
    | cons c t =>
      simp only [splitFuel]
      by_cases hp : sep.isPrefixOf (c :: t) = true
      · rw [if_pos hp]
        have hlen' : (List.drop (sep.length - 1) t).length ≤ fuel := by
          rw [List.length_drop]
          simp only [List.length_cons] at hlen
          omega
        have hij := ih (List.drop (sep.length - 1) t) [] hlen'
        have hne := splitFuel_ne_nil sep fuel [] (List.drop (sep.length - 1) t)
        cases hrest : splitFuel sep fuel [] (List.drop (sep.length - 1) t) with
        | nil => exact absurd hrest hne
        | cons r rs =>
          rw [hrest] at hij
          simp only [List.reverse_nil, List.nil_append] at hij
          have hdecomp : sep ++ List.drop (sep.length - 1) t = c :: t := by
            have hpre : sep ++ List.drop sep.length (c :: t) = c :: t :=
              List.prefix_iff_eq_append.mp (List.isPrefixOf_iff_prefix.mp hp)
            rcases sep with _ | ⟨s0, st⟩
            · exact absurd rfl hsep
            · simpa [List.drop_succ_cons] using hpre
          calc joinL sep (acc.reverse :: r :: rs)
              = acc.reverse ++ sep ++ joinL sep (r :: rs) := rfl
            _ = acc.reverse ++ sep ++ List.drop (sep.length - 1) t := by rw [hij]
            _ = acc.reverse ++ (sep ++ List.drop (sep.length - 1) t) := by
                rw [List.append_assoc]
            _ = acc.reverse ++ (c :: t) := by rw [hdecomp]
      · rw [if_neg hp]
        have hlen' : t.length ≤ fuel := by
          simp only [List.length_cons] at hlen
          omega
        rw [ih t (c :: acc) hlen']
        simp

theorem splitFuel_last (sep : List Char) (hsep : sep ≠ []) (fuel : ℕ) :
    ∀ l acc, l.length ≤ fuel →
      containsL ((splitFuel sep fuel acc l).getLastD []) sep = false ∨
      splitFuel sep fuel acc l = [acc.reverse ++ l] := by
  induction fuel with
  | zero =>
    intro l acc hlen
    exact Or.inr rfl
  | succ fuel ih =>
    intro l acc hlen
    cases l with
    | nil =>
      right
      simp [splitFuel]
    | cons c t =>
      simp only [splitFuel]
      by_cases hp : sep.isPrefixOf (c :: t) = true
      · rw [if_pos hp]
        left
        have hlen' : (List.drop (sep.length - 1) t).length ≤ fuel := by
          rw [List.length_drop]
          simp only [List.length_cons] at hlen
          omega
        have hne := splitFuel_ne_nil sep fuel [] (List.drop (sep.length - 1) t)
        rcases ih (List.drop (sep.length - 1) t) [] hlen' with hleft | hright
        · cases hrest : splitFuel sep fuel [] (List.drop (sep.length - 1) t) with
          | nil => exact absurd hrest hne
          | cons r rs =>
            rw [hrest] at hleft
            simpa [List.getLastD_cons] using hleft
        · rw [hright]
          simp only [List.reverse_nil, List.nil_append] at hright ⊢
          simp only [List.getLastD_cons, List.getLastD_nil]
          by_cases hcon : containsL (List.drop (sep.length - 1) t) sep = true
          · have := splitFuel_length_two sep hsep fuel (List.drop (sep.length - 1) t) [] hlen' hcon
            rw [hright] at this
            simp at this
          · simpa using hcon
      · rw [if_neg hp]
        have hlen' : t.length ≤ fuel := by
          simp only [List.length_cons] at hlen
          omega
        rcases ih t (c :: acc) hlen' with hleft | hright
        · exact Or.inl hleft
        · right
          rw [hright]
          simp

theorem joinL_dropLast_getLast (sep : List Char) :
    ∀ parts : List (List Char), 2 ≤ parts.length →
      joinL sep parts = joinL sep parts.dropLast ++ sep ++ parts.getLastD [] := by
  intro parts
  induction parts with
  | nil => intro h; simp at h
  | cons x rest ih =>
    intro h
    cases rest with
    | nil => simp at h
    | cons y t =>
      cases t with
      | nil =>
        simp [joinL, List.getLastD_cons]
      | cons z u =>
        have hlen : 2 ≤ (y :: z :: u).length := by simp
        have := ih hlen
        calc joinL sep (x :: y :: z :: u)
            = x ++ sep ++ joinL sep (y :: z :: u) := rfl
          _ = x ++ sep ++ (joinL sep (y :: z :: u).dropLast ++ sep ++
              (y :: z :: u).getLastD []) := by rw [this]
          _ = (x ++ sep ++ joinL sep (y :: z :: u).dropLast) ++ sep ++
              (y :: z :: u).getLastD [] := by simp [List.append_assoc]
          _ = joinL sep (x :: y :: z :: u).dropLast ++ sep ++
              (x :: y :: z :: u).getLastD [] := by
              simp only [List.dropLast_cons_of_ne_nil, List.getLastD_cons]
              rfl

/-- Two strings are equal when their character lists are. -/
theorem string_data_ext {a b : String} (h : a.data = b.data) : a = b := by
  cases a
  cases b
  simp_all

/-- C9 counterexample: the claim says a company name itself containing
`" at "` stays intact on the company side.  For the feed title embedding
job "Senior Engineer" at company "Shop at Home", the adapters return
company `"Home"` — only the segment after the last consumed occurrence —
and fold the rest into the title. -/
theorem C9_counterexample :
    parse_rss_title ("Senior Engineer" ++ " at " ++ "Shop at Home") =
      ("Senior Engineer at Shop", "Home") ∧
    ("Home" : String) ≠ "Shop at Home" := by
  constructor
  · decide
  · decide

/-- C9 amended: when the feed title contains `" at "`, the adapter splits
at the last of the left-to-right non-overlapping occurrences: the title
is everything before that occurrence (so a job title containing `" at "`
stays intact on the title side), the company is the remainder, which
contains no further `" at "`; a company name containing `" at "` is NOT
kept intact.  For "Senior Engineer at Acme Corp" this gives
title "Senior Engineer", company "Acme Corp", and the split point is the
last occurrence, not the first. -/
theorem C9_title_company_split :
    (∀ s : String, containsSub s " at " = true →
      ∃ pre post : String,
        s = pre ++ " at " ++ post ∧
        containsSub post " at " = false ∧
        parse_rss_title s = (pyStrip pre, pyStrip post)) ∧
    parse_rss_title "Senior Engineer at Acme Corp" = ("Senior Engineer", "Acme Corp") ∧
    parse_rss_title "Lead at Creative at Heart" = ("Lead at Creative", "Heart") := by
  refine ⟨?_, by decide, by decide⟩
  intro s h
  have hsep : (" at " : String).data ≠ [] := by decide
  have hcon : containsL s.data (" at " : String).data = true := h
  have hlen2 : 2 ≤ (splitParts s " at ").length :=
    splitFuel_length_two _ hsep _ _ [] le_rfl hcon
  have hjoin : joinL (" at " : String).data (splitParts s " at ") = s.data := by
    have hj := splitFuel_join (" at " : String).data hsep s.data.length s.data [] le_rfl
    simpa using hj
  have hlast : containsL ((splitParts s " at ").getLastD []) (" at " : String).data = false := by
    rcases splitFuel_last (" at " : String).data hsep s.data.length s.data [] le_rfl
      with hl | hr
    · exact hl
    · exfalso
      have hr' : splitParts s " at " = [s.data] := by
        unfold splitParts
        simpa using hr
      rw [hr'] at hlen2
      simp at hlen2
  have hdecomp := joinL_dropLast_getLast (" at " : String).data (splitParts s " at ") hlen2
  refine ⟨⟨joinL (" at " : String).data (splitParts s " at ").dropLast⟩,
    ⟨(splitParts s " at ").getLastD []⟩, ?_, hlast, ?_⟩
  · refine string_data_ext ?_
    rw [String.data_append, String.data_append]
    show s.data = joinL (" at " : String).data (splitParts s " at ").dropLast ++
      (" at " : String).data ++ (splitParts s " at ").getLastD []
    rw [← hjoin, hdecomp]
  · unfold parse_rss_title
    rw [if_pos h, if_pos hlen2]

/-- Witness for C9 at the spec's own example title. -/
theorem C9_title_company_split_witness :
    containsSub "Senior Engineer at Acme Corp" " at " = true ∧
    (∃ pre post : String,
      "Senior Engineer at Acme Corp" = pre ++ " at " ++ post ∧
      containsSub post " at " = false ∧
      parse_rss_title "Senior Engineer at Acme Corp" = (pyStrip pre, pyStrip post)) :=
  ⟨by decide, C9_title_company_split.1 "Senior Engineer at Acme Corp" (by decide)⟩

/-! ## Recency Filter (`src/backend/services/date_filter.py`)

Dates and datetimes are modelled as integer timestamps (seconds);
`datetime` comparison agrees with timestamp order and
`timedelta(days=n)` is `n * 86400` seconds.  `_parse_date`'s
`datetime.strptime(date_str[:len(fmt)], fmt)` calls are modelled by a
small interpreter over the format directives `%Y %m %d %H %M %S` with
CPython's `_strptime` alternation patterns and backtracking, requiring
full consumption of the truncated input, plus `datetime`'s own
day-of-month validation. -/

/-- A value held by one of the date fields of a job dict: a `datetime`
(as a timestamp), a string, or a value of any other type. -/
inductive PyVal where
  | dt (timestamp : ℤ)
  | str (s : String)
  | other
deriving DecidableEq, Repr

/-- One `strptime` format directive: a literal character (matched
case-insensitively, as CPython compiles formats with `re.IGNORECASE`) or
one of the numeric directives used by `_parse_date`'s format list. -/
inductive FTok where
  | lit (c : Char)
  | yr4
  | mon
  | day
  | hour
  | minute
  | second
deriving DecidableEq, Repr

/-- ASCII digit value. -/
def digitVal (c : Char) : Option ℕ :=
  if c.isDigit then some (c.toNat - 48) else none

/-- Value of a two-ASCII-digit pair. -/
def twoDigit (c1 c2 : Char) : Option ℕ :=
  match digitVal c1, digitVal c2 with
  | some a, some b => some (10 * a + b)
  | _, _ => none

/-- The ways one directive can match a prefix of the input, as
`(value, rest)` pairs in the alternation order of CPython's `_strptime`
regexes: `%Y → \d{4}`, `%m → 1[0-2]|0[1-9]|[1-9]`,
`%d → 3[01]|[12]\d|0[1-9]|[1-9]`, `%H → 2[0-3]|[0-1]\d|\d`,
`%M, %S → [0-5]\d|\d`. -/
def tokAlternatives : FTok → List Char → List (ℕ × List Char)
  | .lit ch, c :: rest => if ch.toLower = c.toLower then [(0, rest)] else []
  | .lit _, [] => []
  | .yr4, c1 :: c2 :: c3 :: c4 :: rest =>
    (match digitVal c1, digitVal c2, digitVal c3, digitVal c4 with
     | some a, some b, some c, some d => [(a * 1000 + b * 100 + c * 10 + d, rest)]
     | _, _, _, _ => [])
  | .yr4, _ => []
  | .mon, l =>
    (match l with
     | c1 :: c2 :: rest =>
       (match twoDigit c1 c2 with
        | some v =>
          (if 10 ≤ v ∧ v ≤ 12 then [(v, rest)] else []) ++
          (if c1 = '0' ∧ 1 ≤ v ∧ v ≤ 9 then [(v, rest)] else [])
        | none => [])
     | _ => []) ++
    (match l with
     | c1 :: rest =>
       (match digitVal c1 with
        | some v => if 1 ≤ v ∧ v ≤ 9 then [(v, rest)] else []
        | none => [])
     | [] => [])
  | .day, l =>
    (match l with
     | c1 :: c2 :: rest =>
       (match twoDigit c1 c2 with
        | some v =>
          (if 30 ≤ v ∧ v ≤ 31 then [(v, rest)] else []) ++
          (if 10 ≤ v ∧ v ≤ 29 then [(v, rest)] else []) ++
          (if c1 = '0' ∧ 1 ≤ v ∧ v ≤ 9 then [(v, rest)] else [])
        | none => [])
     | _ => []) ++
    (match l with
     | c1 :: rest =>
       (match digitVal c1 with
        | some v => if 1 ≤ v ∧ v ≤ 9 then [(v, rest)] else []
        | none => [])
     | [] => [])
  | .hour, l =>
    (match l with
     | c1 :: c2 :: rest =>
       (match twoDigit c1 c2 with
        | some v =>
          (if 20 ≤ v ∧ v ≤ 23 then [(v, rest)] else []) ++
          (if v ≤ 19 then [(v, rest)] else [])
        | none => [])
     | _ => []) ++
    (match l with
     | c1 :: rest =>
       (match digitVal c1 with
        | some v => [(v, rest)]
        | none => [])
     | [] => [])
  | .minute, l =>
    (match l with
     | c1 :: c2 :: rest =>
       (match twoDigit c1 c2 with
        | some v => if v ≤ 59 then [(v, rest)] else []
        | none => [])
     | _ => []) ++
    (match l with
     | c1 :: rest =>
       (match digitVal c1 with
        | some v => [(v, rest)]
        | none => [])
     | [] => [])
  | .second, l =>
    (match l with
     | c1 :: c2 :: rest =>
       (match twoDigit c1 c2 with
        | some v => if v ≤ 59 then [(v, rest)] else []
        | none => [])
     | _ => [])  ++
    (match l with
     | c1 :: rest =>
       (match digitVal c1 with
        | some v => [(v, rest)]
        | none => [])
     | [] => [])

/-- Regex matching with backtracking over a token list; succeeds only if
the whole input is consumed (`strptime` rejects unconverted data),
returning the directive assignments. -/
def goMatch : List FTok → List Char → Option (List (FTok × ℕ))
  | [], [] => some []
  | [], _ :: _ => none
  | tok :: toks, l =>
    (tokAlternatives tok l).findSome?
      (fun p => (goMatch toks p.2).map (fun as => (tok, p.1) :: as))

/-- Value assigned to a directive, with `strptime`'s defaults
(year 1900, month 1, day 1, time 0). -/
def assignD (as : List (FTok × ℕ)) (tok : FTok) (dflt : ℕ) : ℕ :=
  match as.find? (fun p => p.1 == tok) with
  | some p => p.2
  | none => dflt

/-- Gregorian leap year. -/
def isLeap (y : ℕ) : Bool := (y % 4 = 0 ∧ y % 100 ≠ 0) ∨ y % 400 = 0

/-- Days in a month, for `datetime`'s day-of-month validation. -/
def daysInMonth (y m : ℕ) : ℕ :=
  if m = 2 then (if isLeap y then 29 else 28)
  else if m = 4 ∨ m = 6 ∨ m = 9 ∨ m = 11 then 30
  else 31

/-- Days between a proleptic-Gregorian civil date and 1970-01-01
(the standard era-based algorithm). -/
def daysFromCivil (y m d : ℕ) : ℤ :=
  let yy : ℤ := if m ≤ 2 then (y : ℤ) - 1 else (y : ℤ)
  let era : ℤ := Int.fdiv yy 400
  let yoe : ℤ := yy - era * 400
  let mp : ℤ := ((m : ℤ) + 9) % 12
  let doy : ℤ := (153 * mp + 2).fdiv 5 + (d : ℤ) - 1
  let doe : ℤ := yoe * 365 + yoe.fdiv 4 - yoe.fdiv 100 + doy
  era * 146097 + doe - 719468

/-- Timestamp of a civil datetime, in seconds. -/
def mkTimestamp (y m d hh mm ss : ℕ) : ℤ :=
  daysFromCivil y m d * 86400 + hh * 3600 + mm * 60 + ss

/-- One `datetime.strptime(date_str[:len(fmt)], fmt)` attempt:
match the truncated input against the format's directives, then apply
`datetime`'s validity checks (year ≥ 1, day within the month — the other
ranges are already enforced by the directive patterns). -/
def tryFormat (cs : List Char) (fmt : List FTok) (pyLen : ℕ) : Option ℤ :=
  match goMatch fmt (cs.take pyLen) with
  | none => none
  | some as =>
    let y := assignD as .yr4 1900
    let m := assignD as .mon 1
    let d := assignD as .day 1
    if 1 ≤ y ∧ 1 ≤ d ∧ d ≤ daysInMonth y m then
      some (mkTimestamp y m d (assignD as .hour 0) (assignD as .minute 0) (assignD as .second 0))
    else none

/-- `_parse_date`'s `date_formats` list, each with the Python `len(fmt)`
of the format string (which truncates the input before parsing):
`'%Y-%m-%d'` (8), `'%Y-%m-%dT%H:%M:%S'` (17), `'%Y-%m-%dT%H:%M:%SZ'` (18),
`'%Y-%m-%d %H:%M:%S'` (17), `'%d/%m/%Y'` (8), `'%m/%d/%Y'` (8),
`'%d-%m-%Y'` (8), `'%Y/%m/%d'` (8). -/
def date_formats : List (List FTok × ℕ) :=
  [([.yr4, .lit '-', .mon, .lit '-', .day], 8),
   ([.yr4, .lit '-', .mon, .lit '-', .day, .lit 'T', .hour, .lit ':', .minute,
     .lit ':', .second], 17),
   ([.yr4, .lit '-', .mon, .lit '-', .day, .lit 'T', .hour, .lit ':', .minute,
     .lit ':', .second, .lit 'Z'], 18),
   ([.yr4, .lit '-', .mon, .lit '-', .day, .lit ' ', .hour, .lit ':', .minute,
     .lit ':', .second], 17),
   ([.day, .lit '/', .mon, .lit '/', .yr4], 8),
   ([.mon, .lit '/', .day, .lit '/', .yr4], 8),
   ([.day, .lit '-', .mon, .lit '-', .yr4], 8),
   ([.yr4, .lit '/', .mon, .lit '/', .day], 8)]

/-- `JobDateFilter._parse_date`: a `datetime` is returned as is, a
non-string is rejected, a string is tried against each format in order. -/
def parse_date : PyVal → Option ℤ
  | .dt ts => some ts
  | .str s => date_formats.findSome? (fun p => tryFormat s.data p.1 p.2)
  | .other => none

/-- The "recent indicator" phrases of `_extract_date_from_text`. -/
def recent_indicators : List String :=
  ["posted today", "posted yesterday", "just posted", "new posting"]

/-- Digits-to-value (`int(...)` on the captured group). -/
def digitsVal (ds : List Char) : ℕ :=
  ds.foldl (fun a c => a * 10 + (c.toNat - 48)) 0

/-- Match `(\d+)\s*UNITs?\s*ago` at the current position (greedy digits;
the optional `s` is tried first, as the regex engine does). -/
def matchUnitAgo (unit : List Char) (l : List Char) : Option ℕ :=
  let ds := l.takeWhile Char.isDigit
  if ds = [] then none
  else
    let rest2 := (l.dropWhile Char.isDigit).dropWhile pyIsSpace
    if unit.isPrefixOf rest2 then
      let rest3 := rest2.drop unit.length
      if (match rest3 with
          | 's' :: r4 => ("ago".data.isPrefixOf (r4.dropWhile pyIsSpace) : Bool)
          | _ => false) then
        some (digitsVal ds)
      else if "ago".data.isPrefixOf (rest3.dropWhile pyIsSpace) then some (digitsVal ds)
      else none
    else none

/-- `re.search` scan: leftmost position at which the pattern matches. -/
def scanUnitAgo (unit : List Char) : List Char → Option ℕ
  | [] => none
  | c :: t =>
    match matchUnitAgo unit (c :: t) with
    | some n => some n
    | none => scanUnitAgo unit t

/-- `JobDateFilter._extract_date_from_text`: an indicator phrase maps to
`now`, `N days ago` to `now - N days`, `N weeks ago` to `now - N weeks`. -/
def extract_date_from_text (now : ℤ) (text : String) : Option ℤ :=
  if recent_indicators.any (fun ind => containsSub (pyLower text) ind) then some now
  else
    match scanUnitAgo "day".data (pyLower text).data with
    | some n => some (now - n * 86400)
    | none =>
      match scanUnitAgo "week".data (pyLower text).data with
      | some n => some (now - (n * 7) * 86400)
      | none => none

/-- A job dict as the Recency Filter sees it: the five date fields
(`none` models an absent key) plus the text fields. -/
structure DatedJob where
  posted_date : Option PyVal := none
  created_at : Option PyVal := none
  published : Option PyVal := none
  date_posted : Option PyVal := none
  updated_at : Option PyVal := none
  title : String := ""
  description : String := ""
deriving DecidableEq, Repr

/-- The `date_fields` probe order of `is_job_recent`. -/
def date_fields (j : DatedJob) : List (Option PyVal) :=
  [j.posted_date, j.created_at, j.published, j.date_posted, j.updated_at]

/-- `JobDateFilter.is_job_recent` with the filter's `cutoff_date`
(computed at construction as `now - days_back` days, see `mkCutoff`):
first field that is present AND parses decides by comparison; otherwise
a date extracted from `title description` decides; otherwise the job is
assumed recent. -/
def is_job_recent (cutoff now : ℤ) (j : DatedJob) : Bool :=
  match (date_fields j).findSome? (fun o => o.bind parse_date) with
  | some job_date => cutoff ≤ job_date
  | none =>
    match extract_date_from_text now (j.title ++ " " ++ j.description) with
    | some d => cutoff ≤ d
    | none => true

/-- `JobDateFilter.__init__`: `cutoff_date = datetime.now() - timedelta(days=days_back)`. -/
def mkCutoff (now : ℤ) (days_back : ℕ) : ℤ := now - days_back * 86400

/-- `JobDateFilter.filter_recent_jobs`. -/
def filter_recent_jobs (cutoff now : ℤ) (jobs : List DatedJob) : List DatedJob :=
  jobs.filter (fun j => is_job_recent cutoff now j)

/-- C10: a record none of whose date fields holds a parseable date and
whose title/description yields no recognizable date indicator is treated
as recent and kept by the filter. -/
theorem C10_no_date_keeps (cutoff now : ℤ) (j : DatedJob)
    (h1 : ∀ o ∈ date_fields j, o.bind parse_date = none)
    (h2 : extract_date_from_text now (j.title ++ " " ++ j.description) = none) :
    is_job_recent cutoff now j = true ∧
    filter_recent_jobs cutoff now [j] = [j] := by
  have hfs : (date_fields j).findSome? (fun o => o.bind parse_date) = none := by
    rw [List.findSome?_eq_none_iff]
    exact h1
  have hrec : is_job_recent cutoff now j = true := by
    simp only [is_job_recent, hfs, h2]
  refine ⟨hrec, ?_⟩
  simp [filter_recent_jobs, hrec]

/-- A record with an unparseable date string, a non-date field value, and
no date hint in the text. -/
def c10_job : DatedJob :=
  { posted_date := some (.str "soon"), published := some .other,
    title := "Software Engineer", description := "Apply via the careers portal" }

/-- Witness for C10 at a concrete record. -/
theorem C10_no_date_keeps_witness :
    is_job_recent 0 0 c10_job = true ∧ filter_recent_jobs 0 0 [c10_job] = [c10_job] :=
  C10_no_date_keeps 0 0 c10_job (by decide) (by decide)

end RJA
